import Mathlib

/-!
Verification development for the chunking and hybrid-retrieval core of the
Medley lease-management repository.

The Python sources embedded here are src/chunking/chunker.py,
src/search/hybrid_ranker.py and src/search/query_engine.py.  External
collaborators that live outside the repository (the tiktoken tokenizer, the
Chroma vector store, the rank_bm25 scoring function, the LLM layer) are
modelled as parameters, exactly as the specification treats them (pure
functions / opaque backends).  Python floats are modelled as rationals, and
fallible calls are modelled with Except.
-/

/-! ## Python string primitives

The embedding works on `String.data` (lists of characters) with
structurally recursive functions, mirroring the semantics of the Python
string operations used by the sources. -/

/-- Whitespace set of Python str.strip / str.split default. -/
def pyIsSpace (c : Char) : Bool :=
  c == ' ' || c == '\t' || c == '\n' || c == '\r' || c == '\x0b' || c == '\x0c'

/-- Python str.strip(): remove leading and trailing whitespace. -/
def pyStrip (s : String) : String :=
  ⟨((s.data.dropWhile pyIsSpace).reverse.dropWhile pyIsSpace).reverse⟩

/-- Python text.split("\n\n"): split on non-overlapping occurrences of a
blank line, scanning left to right; empty input yields one empty field. -/
def splitNN : List Char → List (List Char)
  | [] => [[]]
  | '\n' :: '\n' :: rest => [] :: splitNN rest
  | c :: rest =>
    match splitNN rest with
    | s :: ss => (c :: s) :: ss
    | [] => [[c]]

/-- Paragraphs of a section: Python content.split("\n\n") as strings. -/
def pyParagraphs (s : String) : List String :=
  (splitNN s.data).map (fun l => (⟨l⟩ : String))

/-- Python sub in s (substring containment). -/
def strContainsSub (sub : List Char) : List Char → Bool
  | [] => sub.isEmpty
  | c :: rest => sub.isPrefixOf (c :: rest) || strContainsSub sub rest

/-- Python s.lower() (ASCII case folding, which is all the sources need). -/
def pyLower (s : String) : String :=
  ⟨s.data.map Char.toLower⟩

/-- Python s.replace("_", " "), used on data-sheet keys. -/
def pyUnderscoreToSpace (s : String) : String :=
  ⟨s.data.map (fun c => if c = '_' then ' ' else c)⟩

/-- Helper for `pyTitle`: the Boolean records whether the previous
character was alphabetic. -/
def pyTitleAux : Bool → List Char → List Char
  | _, [] => []
  | prevAlpha, c :: rest =>
    (if c.isAlpha then (if prevAlpha then c.toLower else c.toUpper) else c)
      :: pyTitleAux c.isAlpha rest

/-- Python s.title(): capitalize the first letter of each word. -/
def pyTitle (s : String) : String := ⟨pyTitleAux false s.data⟩

/-! ## Stable sorting

Python list.sort(key=..., reverse=True) and sorted(..., reverse=True) are
documented to be stable: elements comparing equal keep their original
relative order.  Stability determines the sorted output uniquely, so the
stable insertion sort below computes exactly the function the Python calls
compute (with `le a b` meaning "a may come no later than b"). -/

def insertStable (le : α → α → Bool) (a : α) : List α → List α
  | [] => [a]
  | b :: l => if le a b then a :: b :: l else b :: insertStable le a l

def stableSort (le : α → α → Bool) : List α → List α
  | [] => []
  | a :: l => insertStable le a (stableSort le l)

/-! ## Python dicts

Insertion-ordered association lists: updating an existing key keeps its
position, a new key is appended.  Lookup takes the first (unique) match. -/

def dictInsert (d : List (String × α)) (k : String) (v : α) : List (String × α) :=
  match d with
  | [] => [(k, v)]
  | (k2, v2) :: rest => if k2 = k then (k, v) :: rest else (k2, v2) :: dictInsert rest k v

/-- Python d.get(k, dflt). -/
def dictGetD (d : List (String × α)) (k : String) (dflt : α) : α :=
  (List.lookup k d).getD dflt

/-! ## Tokenizer adapter

Modelled from the spec: the Tokenizer Adapter "counts and truncates text
using the target embedding/LLM model's token accounting; pure function, no
state".  In the code it is the external tiktoken cl100k_base encoding,
whose byte-pair data is not part of the repository, so it is modelled as an
abstract encode/decode pair; `charTok` below is a concrete instance used
for closed evaluations. -/

structure Tokenizer where
  encode : String → List Nat
  decode : List Nat → String

/-- Chunker.count_tokens: length of the encoding. -/
def countTokens (T : Tokenizer) (s : String) : Nat :=
  (T.encode s).length

/-- Modelled from the spec: a concrete Tokenizer Adapter instance (one
token per character, with an exact decode round-trip), standing in for the
external cl100k_base encoding in closed evaluations. -/
def charTok : Tokenizer where
  encode s := s.data.map Char.toNat
  decode l := ⟨l.map Char.ofNat⟩

/-! ## Data model (chunker.py) -/

/-- Metadata values (Python Any restricted to the shapes the sources store). -/
inductive MVal where
  | str (s : String)
  | nat (n : Nat)
  | strList (l : List String)
deriving DecidableEq

/-- Chunk dataclass of chunker.py. -/
structure Chunk where
  id : String
  content : String
  metadata : List (String × MVal)
  token_count : Nat
  source_file : String
  section_type : String
  section_name : String := ""
  chunk_index : Nat := 0
deriving DecidableEq

/-- TableData dataclass of docx_parser.py. -/
structure TableData where
  headers : List String
  rows : List (List String)
  raw_text : String
  table_type : String
deriving DecidableEq

/-- ParsedDocument dataclass of docx_parser.py (sections and the data
sheet are insertion-ordered dicts, modelled as association lists). -/
structure ParsedDocument where
  file_path : String := ""
  file_name : String
  full_text : String := ""
  paragraphs : List String := []
  tables : List TableData
  sections : List (String × String)
  data_sheet : List (String × String)
  tenant_name : String
deriving DecidableEq

/-- Chunker configuration; __init__ stores the three sizes unchecked
(defaults 1000 / 100 / 100 tokens). -/
structure Chunker where
  chunk_size : Int
  chunk_overlap : Int
  min_chunk_size : Int
deriving DecidableEq

/-- Chunker.__init__: records the parameters; the body performs no
validation of any kind. -/
def Chunker.init (chunk_size chunk_overlap min_chunk_size : Int) : Chunker :=
  { chunk_size := chunk_size, chunk_overlap := chunk_overlap,
    min_chunk_size := min_chunk_size }

/-! ## Chunker algorithm (chunker.py)

The text cleaner (TextCleaner.clean_for_embedding) acts on section and
data-sheet text before any chunking decision; it is threaded through as an
explicit pure function `clean`, and the chunk ids produced by uuid.uuid4()
are threaded through as a supply `idGen` indexed by creation order. -/

/-- Python tokens[-chunk_overlap:] (negative-index slice semantics). -/
def pySliceLastTokens (tokens : List Nat) (k : Int) : List Nat :=
  if 0 < k then tokens.drop (tokens.length - k.toNat) else tokens.drop (-k).toNat

/-- Chunker._get_overlap_text: decode the last chunk_overlap tokens. -/
def getOverlapText (T : Tokenizer) (cfg : Chunker) (text : String) : String :=
  let tokens := T.encode text
  if (tokens.length : Int) ≤ cfg.chunk_overlap then text
  else T.decode (pySliceLastTokens tokens cfg.chunk_overlap)

/-- Chunker._determine_section_type. -/
def determineSectionType (section_name : String) : String :=
  let sl := (pyLower section_name).data
  if strContainsSub "article".data sl then "article"
  else if strContainsSub "exhibit".data sl then "exhibit"
  else if strContainsSub "data sheet".data sl then "data_sheet"
  else if strContainsSub "rent".data sl then "rent_schedule"
  else "general"

/-- Chunker._chunk_data_sheet: one formatted chunk when a data sheet is
present (Python falsiness of the empty dict). -/
def chunkDataSheet (T : Tokenizer) (clean : String → String)
    (doc : ParsedDocument) : List Chunk :=
  if doc.data_sheet = [] then []
  else
    let body := doc.data_sheet.foldl
      (fun acc kv => acc ++ pyTitle (pyUnderscoreToSpace kv.1) ++ ": " ++ kv.2 ++ "\n")
      "DATA SHEET SUMMARY\n\n"
    let cleaned := clean body
    [{ id := "", content := cleaned,
       metadata := doc.data_sheet.foldl
         (fun d kv => dictInsert d kv.1 (MVal.str kv.2))
         [("tenant_name", MVal.str doc.tenant_name),
          ("source_file", MVal.str doc.file_name),
          ("section_type", MVal.str "data_sheet")],
       token_count := countTokens T cleaned,
       source_file := doc.file_name,
       section_type := "data_sheet",
       section_name := "Data Sheet" }]

/-- The chunks one table contributes in Chunker._chunk_rent_schedules:
exactly one for a rent-schedule table, none otherwise. -/
def rentChunksOfTable (T : Tokenizer) (clean : String → String)
    (doc : ParsedDocument) (table : TableData) : List Chunk :=
  if table.table_type = "rent_schedule" then
    let cleaned := clean ("RENT SCHEDULE for " ++ doc.tenant_name ++ "\n\n" ++ table.raw_text)
    [{ id := "", content := cleaned,
       metadata := [("tenant_name", MVal.str doc.tenant_name),
                    ("source_file", MVal.str doc.file_name),
                    ("section_type", MVal.str "rent_schedule"),
                    ("table_headers", MVal.strList table.headers)],
       token_count := countTokens T cleaned,
       source_file := doc.file_name,
       section_type := "rent_schedule",
       section_name := "Rent Schedule" }]
  else []

/-- Chunker._chunk_rent_schedules: one chunk per rent-schedule table. -/
def chunkRentSchedules (T : Tokenizer) (clean : String → String)
    (doc : ParsedDocument) : List Chunk :=
  doc.tables.foldl (fun acc table => acc ++ rentChunksOfTable T clean doc table) []

/-- Loop state of Chunker._split_large_section: the working buffer, the
incrementally accumulated token counter, the 1-based part number, and the
chunks saved so far. -/
structure SplitState where
  text : String
  tokens : Nat
  chunkNumber : Nat
  chunks : List Chunk
deriving DecidableEq

/-- The chunk saved when the paragraph loop of
Chunker._split_large_section closes the current buffer: content is the
stripped buffer, token_count is the accumulated counter. -/
def closedSplitChunk (doc : ParsedDocument) (section_name section_type : String)
    (st : SplitState) : Chunk :=
  { id := "", content := pyStrip st.text,
    metadata := [("tenant_name", MVal.str doc.tenant_name),
                 ("source_file", MVal.str doc.file_name),
                 ("section_type", MVal.str section_type),
                 ("section_name", MVal.str section_name),
                 ("chunk_part", MVal.nat st.chunkNumber)],
    token_count := st.tokens,
    source_file := doc.file_name,
    section_type := section_type,
    section_name := section_name ++ " (Part " ++ toString st.chunkNumber ++ ")" }

/-- One iteration of the paragraph loop in Chunker._split_large_section. -/
def splitStep (T : Tokenizer) (cfg : Chunker) (doc : ParsedDocument)
    (section_name section_type : String) (st : SplitState) (para : String) : SplitState :=
  let para_tokens := countTokens T para
  if ((st.tokens + para_tokens : Nat) : Int) > cfg.chunk_size ∧ st.text ≠ "" then
    let c : Chunk := closedSplitChunk doc section_name section_type st
    let overlap_text := getOverlapText T cfg st.text
    let newText := overlap_text ++ "\n\n" ++ para
    { text := newText, tokens := countTokens T newText,
      chunkNumber := st.chunkNumber + 1, chunks := st.chunks ++ [c] }
  else
    if st.text ≠ "" then
      { st with text := st.text ++ "\n\n" ++ para, tokens := st.tokens + para_tokens }
    else
      { st with text := para, tokens := st.tokens + para_tokens }

/-- The save of the final buffer at the end of Chunker._split_large_section:
kept only when non-empty and at least min_chunk_size tokens. -/
def finalSplitChunks (T : Tokenizer) (cfg : Chunker) (doc : ParsedDocument)
    (section_name section_type : String) (st : SplitState) : List Chunk :=
  if st.text ≠ "" ∧ cfg.min_chunk_size ≤ (countTokens T st.text : Int) then
    [{ id := "", content := pyStrip st.text,
       metadata := [("tenant_name", MVal.str doc.tenant_name),
                    ("source_file", MVal.str doc.file_name),
                    ("section_type", MVal.str section_type),
                    ("section_name", MVal.str section_name),
                    ("chunk_part", MVal.nat st.chunkNumber)],
       token_count := countTokens T st.text,
       source_file := doc.file_name,
       section_type := section_type,
       section_name :=
         if st.chunkNumber > 1 then
           section_name ++ " (Part " ++ toString st.chunkNumber ++ ")"
         else section_name }]
  else []

/-- Chunker._split_large_section. -/
def splitLargeSection (T : Tokenizer) (cfg : Chunker) (content : String)
    (section_name section_type : String) (doc : ParsedDocument) : List Chunk :=
  let st := (pyParagraphs content).foldl
    (splitStep T cfg doc section_name section_type) ⟨"", 0, 1, []⟩
  st.chunks ++ finalSplitChunks T cfg doc section_name section_type st

/-- The body of the section loop of Chunker._chunk_by_sections. -/
def sectionChunks (T : Tokenizer) (cfg : Chunker) (clean : String → String)
    (doc : ParsedDocument) (sec : String × String) : List Chunk :=
  let cleaned := clean sec.2
  let token_count := countTokens T cleaned
  let section_type := determineSectionType sec.1
  if (token_count : Int) ≤ cfg.chunk_size then
    if cfg.min_chunk_size ≤ (token_count : Int) then
      [{ id := "", content := cleaned,
         metadata := [("tenant_name", MVal.str doc.tenant_name),
                      ("source_file", MVal.str doc.file_name),
                      ("section_type", MVal.str section_type),
                      ("section_name", MVal.str sec.1)],
         token_count := token_count,
         source_file := doc.file_name,
         section_type := section_type,
         section_name := sec.1 }]
    else []
  else splitLargeSection T cfg cleaned sec.1 section_type doc

/-- Chunker._chunk_by_sections. -/
def chunkBySections (T : Tokenizer) (cfg : Chunker) (clean : String → String)
    (doc : ParsedDocument) : List Chunk :=
  doc.sections.foldl (fun acc sec => acc ++ sectionChunks T cfg clean doc sec) []

/-- Chunker.chunk_document: data sheet, then rent schedules, then sections;
chunk ids are drawn from the uuid supply in creation order and
chunk_index is the emission index. -/
def chunkDocument (T : Tokenizer) (cfg : Chunker) (clean : String → String)
    (idGen : Nat → String) (doc : ParsedDocument) : List Chunk :=
  let chunks := chunkDataSheet T clean doc ++ chunkRentSchedules T clean doc
    ++ chunkBySections T cfg clean doc
  chunks.enum.map (fun p => { p.2 with id := idGen p.1, chunk_index := p.1 })

/-! ## Search data model (hybrid_ranker.py)

The ChromaStore backend is an external collaborator: its `search` call is
modelled as a function from the query, the requested k and the metadata
filter to a fallible ranked list (id, content, metadata, distance), and
`get_all_chunks` as a fallible snapshot of the corpus.  The rank_bm25
scoring function (BM25Okapi.get_scores) is likewise external and is passed
in as `getScores` from the tokenized corpus and query. -/

/-- One (id, content, metadata, score-or-distance) tuple as produced by the
sub-searches of hybrid_ranker.py. -/
structure RankedItem where
  id : String
  content : String
  metadata : List (String × MVal)
  score : ℚ
deriving DecidableEq

/-- SearchResult dataclass of hybrid_ranker.py. -/
structure SearchResult where
  chunk_id : String
  content : String
  metadata : List (String × MVal)
  score : ℚ
  vector_rank : Option Nat := none
  bm25_rank : Option Nat := none
deriving DecidableEq

/-- The store.get_all_chunks() snapshot (aligned ids / documents /
metadatas). -/
structure BM25Corpus where
  ids : List String
  documents : List String
  metadatas : List (List (String × MVal))
deriving DecidableEq

/-- External ChromaStore contract. -/
structure ChromaStore where
  search : String → Nat → List (String × MVal) → Except String (List RankedItem)
  get_all_chunks : Except String BM25Corpus

/-- HybridRanker configuration (defaults 20 / 20 / 10 / 60 / 0.6 / 0.4
from config/settings.py; the float weights are modelled as rationals). -/
structure HybridRanker where
  vector_k : Nat
  bm25_k : Nat
  final_k : Nat
  rrf_k : ℚ
  vector_weight : ℚ
  bm25_weight : ℚ

/-- HybridRanker._tokenize: lowercase, then the maximal runs of word
characters (re.findall of word runs). -/
def wordTokensAux (cur : List Char) : List Char → List (List Char)
  | [] => if cur.isEmpty then [] else [cur.reverse]
  | c :: rest =>
    if c.isAlphanum || c == '_' then wordTokensAux (c :: cur) rest
    else if cur.isEmpty then wordTokensAux [] rest
    else cur.reverse :: wordTokensAux [] rest

/-- HybridRanker._tokenize on a string. -/
def tokenize (text : String) : List String :=
  (wordTokensAux [] (pyLower text).data).map (fun l => (⟨l⟩ : String))

/-- HybridRanker._vector_search: the store call with vector_k and the
caller's filter (the zip of the aligned response fields is the RankedItem
list itself). -/
def vectorSearch (store : ChromaStore) (cfg : HybridRanker) (query : String)
    (whereF : List (String × MVal)) : Except String (List RankedItem) :=
  store.search query cfg.vector_k whereF

/-- The (index, score) selection of HybridRanker._bm25_search: enumerate
the scores, stable-sort descending by score, truncate to bm25_k, keep the
strictly positive ones. -/
def bm25TopK (cfg : HybridRanker) (scores : List ℚ) : List (Nat × ℚ) :=
  ((stableSort (fun a b => decide (b.2 ≤ a.2)) scores.enum).take cfg.bm25_k).filter
    (fun p => decide (0 < p.2))

/-- The corpus row selected by one (index, score) pair. -/
def bm25ItemOfIdx (corpus : BM25Corpus) (p : Nat × ℚ) : RankedItem :=
  { id := corpus.ids[p.1]?.getD "", content := corpus.documents[p.1]?.getD "",
    metadata := corpus.metadatas[p.1]?.getD [], score := p.2 }

/-- HybridRanker._bm25_search (the index is built from the current
snapshot; BM25Okapi.get_scores is the external `getScores`). -/
def bm25Search (cfg : HybridRanker) (store : ChromaStore)
    (getScores : List (List String) → List String → List ℚ)
    (query : String) : Except String (List RankedItem) := do
  let corpus ← store.get_all_chunks
  let query_tokens := tokenize query
  let scores := getScores (corpus.documents.map tokenize) query_tokens
  pure ((bm25TopK cfg scores).map (bm25ItemOfIdx corpus))

/-- The five insertion-ordered dicts of
HybridRanker._reciprocal_rank_fusion. -/
structure RRFState where
  scores : List (String × ℚ)
  contents : List (String × String)
  metadatas : List (String × List (String × MVal))
  vector_ranks : List (String × Nat)
  bm25_ranks : List (String × Nat)

/-- The vector loop of _reciprocal_rank_fusion (enumerate from `rank`). -/
def processVectorResults (cfg : HybridRanker) : Nat → List RankedItem → RRFState → RRFState
  | _, [], st => st
  | rank, it :: rest, st =>
    let rrf_score := cfg.vector_weight * (1 / (cfg.rrf_k + (rank : ℚ)))
    processVectorResults cfg (rank + 1) rest
      { st with
        scores := dictInsert st.scores it.id (dictGetD st.scores it.id 0 + rrf_score),
        contents := dictInsert st.contents it.id it.content,
        metadatas := dictInsert st.metadatas it.id it.metadata,
        vector_ranks := dictInsert st.vector_ranks it.id rank }

/-- The BM25 loop of _reciprocal_rank_fusion (enumerate from `rank`). -/
def processBM25Results (cfg : HybridRanker) : Nat → List RankedItem → RRFState → RRFState
  | _, [], st => st
  | rank, it :: rest, st =>
    let rrf_score := cfg.bm25_weight * (1 / (cfg.rrf_k + (rank : ℚ)))
    processBM25Results cfg (rank + 1) rest
      { st with
        scores := dictInsert st.scores it.id (dictGetD st.scores it.id 0 + rrf_score),
        contents := dictInsert st.contents it.id it.content,
        metadatas := dictInsert st.metadatas it.id it.metadata,
        bm25_ranks := dictInsert st.bm25_ranks it.id rank }

/-- HybridRanker._reciprocal_rank_fusion: accumulate both loops, then sort
the keys (insertion order) descending by accumulated score with Python's
stable sorted(). -/
def reciprocalRankFusion (cfg : HybridRanker)
    (vector_results bm25_results : List RankedItem) : List SearchResult :=
  let st0 : RRFState := ⟨[], [], [], [], []⟩
  let st1 := processVectorResults cfg 1 vector_results st0
  let st := processBM25Results cfg 1 bm25_results st1
  let sorted_ids := stableSort
    (fun a b => decide (dictGetD st.scores b 0 ≤ dictGetD st.scores a 0))
    (st.scores.map Prod.fst)
  sorted_ids.map (fun cid =>
    { chunk_id := cid,
      content := dictGetD st.contents cid "",
      metadata := dictGetD st.metadatas cid [],
      score := dictGetD st.scores cid 0,
      vector_rank := List.lookup cid st.vector_ranks,
      bm25_rank := List.lookup cid st.bm25_ranks })

/-- HybridRanker._apply_metadata_filter: keep a result only when every
filter key is present in its metadata with exactly the filter value. -/
def matchesFilter (whereF : List (String × MVal)) (r : SearchResult) : Bool :=
  whereF.all (fun kv =>
    match List.lookup kv.1 r.metadata with
    | none => false
    | some v => v == kv.2)

/-- HybridRanker._apply_metadata_filter. -/
def applyMetadataFilter (results : List SearchResult)
    (whereF : List (String × MVal)) : List SearchResult :=
  results.filter (matchesFilter whereF)

/-- Python's `n_results or self.final_k` at the top of
HybridRanker.search: None and 0 are falsy and fall back to final_k. -/
def effectiveK (cfg : HybridRanker) (n_results : Option Nat) : Nat :=
  match n_results with
  | some n => if n = 0 then cfg.final_k else n
  | none => cfg.final_k

instance {ε α : Type} [DecidableEq ε] [DecidableEq α] : DecidableEq (Except ε α) :=
  fun a b =>
    match a, b with
    | Except.ok x, Except.ok y =>
      if h : x = y then isTrue (by rw [h]) else
        isFalse (fun he => h (Except.ok.inj he))
    | Except.error x, Except.error y =>
      if h : x = y then isTrue (by rw [h]) else
        isFalse (fun he => h (Except.error.inj he))
    | Except.ok _, Except.error _ => isFalse (fun he => Except.noConfusion he)
    | Except.error _, Except.ok _ => isFalse (fun he => Except.noConfusion he)

/-- HybridRanker.search: both sub-searches, RRF fusion, the post filter
when a (truthy, i.e. non-empty) metadata filter was supplied, then
truncation; `none` and `some 0` both fall back to final_k, matching
Python's `n_results or self.final_k`. -/
def HybridRanker.search (cfg : HybridRanker) (store : ChromaStore)
    (getScores : List (List String) → List String → List ℚ)
    (query : String) (n_results : Option Nat)
    (whereF : List (String × MVal)) : Except String (List SearchResult) := do
  let n := effectiveK cfg n_results
  let vector_results ← vectorSearch store cfg query whereF
  let bm25_results ← bm25Search cfg store getScores query
  let combined := reciprocalRankFusion cfg vector_results bm25_results
  let combined := if whereF ≠ [] then applyMetadataFilter combined whereF else combined
  pure (combined.take n)

/-- HybridRanker.vector_only_search. -/
def vectorOnlySearch (cfg : HybridRanker) (store : ChromaStore) (query : String)
    (n_results : Nat) (whereF : List (String × MVal)) :
    Except String (List SearchResult) := do
  let results ← vectorSearch store cfg query whereF
  pure ((results.take n_results).enum.map (fun p =>
    { chunk_id := p.2.id, content := p.2.content, metadata := p.2.metadata,
      score := 1 / (1 + p.2.score), vector_rank := some (p.1 + 1) }))

/-- HybridRanker.keyword_only_search: BM25 only; note that no metadata
filter parameter exists on this path. -/
def keywordOnlySearch (cfg : HybridRanker) (store : ChromaStore)
    (getScores : List (List String) → List String → List ℚ)
    (query : String) (n_results : Nat) : Except String (List SearchResult) := do
  let results ← bm25Search cfg store getScores query
  pure ((results.take n_results).enum.map (fun p =>
    { chunk_id := p.2.id, content := p.2.content, metadata := p.2.metadata,
      score := p.2.score, bm25_rank := some (p.1 + 1) }))

/-- QueryEngine.search_only (query_engine.py): build the tenant filter,
then dispatch on search_type; the keyword branch passes no filter. -/
def QueryEngine.searchOnly (cfg : HybridRanker) (store : ChromaStore)
    (getScores : List (List String) → List String → List ℚ)
    (query : String) (n_results : Nat) (tenant_filter : Option String)
    (search_type : String) : Except String (List SearchResult) :=
  let whereF := match tenant_filter with
    | some t => [("tenant_name", MVal.str t)]
    | none => []
  if search_type = "vector" then vectorOnlySearch cfg store query n_results whereF
  else if search_type = "keyword" then keywordOnlySearch cfg store getScores query n_results
  else HybridRanker.search cfg store getScores query (some n_results) whereF

/-! ## Spec-side formulas and fixed evaluation data -/

/-- The 1-based rank of the first occurrence of an id in a ranked id list
(the rank the spec formula speaks about). -/
def rankIn (ids : List String) (cid : String) : Option Nat :=
  match ids with
  | [] => none
  | i :: rest => if i = cid then some 1 else (rankIn rest cid).map (· + 1)

/-- Modelled from the spec: the per-list RRF contribution, "at rank r
(1-indexed) in a given list, contribute weight × 1/(rrf_k + r)"; zero when
the id is absent from the list. -/
def rrfContribution (w k : ℚ) (ids : List String) (cid : String) : ℚ :=
  match rankIn ids cid with
  | some r => w * (1 / (k + (r : ℚ)))
  | none => 0

/-- The total accumulated contribution one of the fusion loops adds for an
id when enumeration starts at `rank` (sums every occurrence, as the code
does). -/
def contribSum (w k : ℚ) : Nat → List String → String → ℚ
  | _, [], _ => 0
  | rank, i :: rest, cid =>
    (if i = cid then w * (1 / (k + (rank : ℚ))) else 0) + contribSum w k (rank + 1) rest cid

/-- The successor relation that consecutive chunks of one split section
satisfy: the later chunk is the whitespace-stripped extension of the
overlap text of the earlier chunk's pre-strip buffer. -/
def ChunkSuccession (T : Tokenizer) (cfg : Chunker) (c c2 : Chunk) : Prop :=
  ∃ b rest, c.content = pyStrip b ∧
    c2.content = pyStrip (getOverlapText T cfg b ++ "\n\n" ++ rest)

/-- A chunk with the id erased (the determinism contract compares
everything except the randomly generated ids). -/
def eraseId (c : Chunk) : Chunk := { c with id := "" }

/-- A document with a single two-paragraph section, used for closed
evaluations of the chunker. -/
def exDocC1 : ParsedDocument :=
  { file_name := "t.docx", tables := [], sections := [("Terms", "abcdefgh\n\nxy")],
    data_sheet := [], tenant_name := "T" }

/-- An empty document shell used where _split_large_section only reads the
file name and tenant of the document. -/
def exDocE : ParsedDocument :=
  { file_name := "t.docx", tables := [], sections := [], data_sheet := [],
    tenant_name := "T" }

/-- A hybrid-ranker configuration with integral weights, used for closed
evaluations (the rational weights never need normalizing there). -/
def cfgHR1 : HybridRanker := ⟨20, 20, 10, 60, 1, 1⟩

/-- A store whose vector search raises while the corpus snapshot for the
lexical index is healthy and non-empty. -/
def exStoreVecFail : ChromaStore :=
  { search := fun _ _ _ => Except.error "vector index down",
    get_all_chunks := Except.ok ⟨["c1"], ["lease rent"], [[]]⟩ }

/-- A store whose vector search succeeds with no hits over the same
healthy corpus snapshot. -/
def exStoreVecEmpty : ChromaStore :=
  { search := fun _ _ _ => Except.ok [],
    get_all_chunks := Except.ok ⟨["c1"], ["lease rent"], [[]]⟩ }

/-- A store whose vector search succeeds while the corpus snapshot needed
by the lexical index raises. -/
def exStoreBm25Fail : ChromaStore :=
  { search := fun _ _ _ => Except.ok [],
    get_all_chunks := Except.error "corpus unavailable" }

/-- A store whose corpus holds a single chunk belonging to tenant B. -/
def exStoreTenantB : ChromaStore :=
  { search := fun _ _ _ => Except.ok [],
    get_all_chunks :=
      Except.ok ⟨["c1"], ["lease rent"], [[("tenant_name", MVal.str "B")]]⟩ }

/-- A store with a two-document corpus (for ranking evaluations). -/
def exStoreTwo : ChromaStore :=
  { search := fun _ _ _ => Except.ok [],
    get_all_chunks := Except.ok ⟨["c1", "c2"], ["d1", "d2"], [[], []]⟩ }

/-- A store whose vector search returns one tenant-X chunk and whose
corpus snapshot is empty. -/
def exStoreVecX : ChromaStore :=
  { search := fun _ _ _ =>
      Except.ok [⟨"a1", "content a", [("tenant_name", MVal.str "X")], 0⟩],
    get_all_chunks := Except.ok ⟨[], [], []⟩ }

/-- External BM25 scores: the constant singleton score 1. -/
def exScoresOne : List (List String) → List String → List ℚ := fun _ _ => [1]

/-- External BM25 scores: the constant pair of scores 2 and 3. -/
def exScoresTwo : List (List String) → List String → List ℚ := fun _ _ => [2, 3]

/-- External BM25 scores: no scores at all. -/
def exScoresNil : List (List String) → List String → List ℚ := fun _ _ => []

/-! # Theorems

General-purpose lemmas first (stable sort, dicts, fold helpers), then one
theorem per claim with its closed witnesses and counterexamples. -/

theorem mem_insertStable (le : α → α → Bool) (a b : α) :
    ∀ l : List α, b ∈ insertStable le a l ↔ b = a ∨ b ∈ l
  | [] => by simp [insertStable]
  | c :: t => by
    simp only [insertStable]
    split
    · simp
    · simp [mem_insertStable le a b t]
      tauto

theorem mem_stableSort (le : α → α → Bool) (a : α) :
    ∀ l : List α, a ∈ stableSort le l ↔ a ∈ l
  | [] => by simp [stableSort]
  | c :: t => by
    simp [stableSort, mem_insertStable, mem_stableSort le a t]

theorem pairwise_insertStable {le : α → α → Bool}
    (htrans : ∀ a b c, le a b = true → le b c = true → le a c = true)
    (htotal : ∀ a b, le a b = true ∨ le b a = true)
    {P : α → α → Prop} (a : α) :
    ∀ l : List α,
      l.Pairwise (fun x y => le x y = true ∧ (le y x = true → P x y)) →
      (∀ b ∈ l, P a b) →
      (insertStable le a l).Pairwise (fun x y => le x y = true ∧ (le y x = true → P x y))
  | [], _, _ => by simp [insertStable]
  | b :: t, hl, ha => by
    rw [List.pairwise_cons] at hl
    simp only [insertStable]
    split
    · rename_i hab
      refine List.Pairwise.cons ?_ (List.pairwise_cons.mpr hl)
      intro x hx
      rcases List.mem_cons.mp hx with hxb | hxt
      · subst hxb
        exact ⟨hab, fun _ => ha x (List.mem_cons_self _ _)⟩
      · exact ⟨htrans _ _ _ hab (hl.1 x hxt).1,
          fun _ => ha x (List.mem_cons_of_mem _ hxt)⟩
    · rename_i hab
      refine List.Pairwise.cons ?_ ?_
      · intro x hx
        rcases (mem_insertStable le a x t).mp hx with hxa | hxt
        · subst hxa
          refine ⟨?_, fun h => absurd h hab⟩
          rcases htotal x b with h | h
          · exact absurd h hab
          · exact h
        · exact hl.1 x hxt
      · exact pairwise_insertStable htrans htotal a t hl.2
          (fun x hx => ha x (List.mem_cons_of_mem _ hx))

theorem pairwise_stableSort {le : α → α → Bool}
    (htrans : ∀ a b c, le a b = true → le b c = true → le a c = true)
    (htotal : ∀ a b, le a b = true ∨ le b a = true)
    {P : α → α → Prop} :
    ∀ l : List α, l.Pairwise P →
      (stableSort le l).Pairwise (fun x y => le x y = true ∧ (le y x = true → P x y))
  | [], _ => by simp [stableSort]
  | a :: t, hl => by
    rw [List.pairwise_cons] at hl
    exact pairwise_insertStable htrans htotal a _
      (pairwise_stableSort htrans htotal t hl.2)
      (fun b hb => hl.1 b ((mem_stableSort le b t).mp hb))

theorem pairwise_le_stableSort {le : α → α → Bool}
    (htrans : ∀ a b c, le a b = true → le b c = true → le a c = true)
    (htotal : ∀ a b, le a b = true ∨ le b a = true) (l : List α) :
    (stableSort le l).Pairwise (fun x y => le x y = true) := by
  have htriv : l.Pairwise (fun _ _ => True) := by
    induction l with
    | nil => simp
    | cons a t ih => exact List.Pairwise.cons (fun _ _ => trivial) ih
  exact (pairwise_stableSort htrans htotal l htriv).imp (fun h => h.1)

theorem lookup_dictInsert_self (k : String) (v : α) :
    ∀ d : List (String × α), List.lookup k (dictInsert d k v) = some v
  | [] => by simp [dictInsert, List.lookup]
  | (k2, v2) :: t => by
    simp only [dictInsert]
    split
    · simp [List.lookup]
    · rename_i h
      have hne : (k == k2) = false := beq_eq_false_iff_ne.mpr (fun he => h he.symm)
      simp [List.lookup, hne, lookup_dictInsert_self k v t]

theorem lookup_dictInsert_ne {k k2 : String} (h : k2 ≠ k) (v : α) :
    ∀ d : List (String × α), List.lookup k2 (dictInsert d k v) = List.lookup k2 d
  | [] => by
    have : (k2 == k) = false := beq_eq_false_iff_ne.mpr h
    simp [dictInsert, List.lookup, this]
  | (k3, v3) :: t => by
    simp only [dictInsert]
    split
    · rename_i h3
      subst h3
      have : (k2 == k3) = false := beq_eq_false_iff_ne.mpr h
      simp [List.lookup, this]
    · simp only [List.lookup]
      split <;> simp_all [lookup_dictInsert_ne h v t]

theorem mem_map_fst_dictInsert (k k2 : String) (v : α) :
    ∀ d : List (String × α),
      k2 ∈ (dictInsert d k v).map Prod.fst ↔ k2 = k ∨ k2 ∈ d.map Prod.fst
  | [] => by simp [dictInsert]
  | (k3, v3) :: t => by
    simp only [dictInsert]
    split
    · rename_i h3
      subst h3
      simp
    · simp [mem_map_fst_dictInsert k k2 v t]
      tauto

theorem mem_foldl_append {g : α → List β} :
    ∀ (l : List α) (acc : List β) (b : β),
      (b ∈ l.foldl (fun acc2 x => acc2 ++ g x) acc ↔ b ∈ acc ∨ ∃ x ∈ l, b ∈ g x)
  | [], acc, b => by simp
  | a :: t, acc, b => by
    simp only [List.foldl_cons]
    rw [mem_foldl_append t (acc ++ g a) b]
    simp [List.mem_append]
    tauto

/-- Claim C6 counterexample: the Chunker constructor happily produces an
instance with zero chunk_size and negative min_chunk_size; nothing fails
at construction. -/
theorem chunker_init_no_validation :
    (Chunker.init 0 100 (-7)).chunk_size = 0 ∧
      (Chunker.init 0 100 (-7)).min_chunk_size = -7 :=
  ⟨rfl, rfl⟩

/-- Claim C6 (amended): Chunker.__init__ performs no validation at all; for
every choice of sizes, including zero and negative ones, it returns the
instance that simply stores the three parameters. -/
theorem chunker_init_total :
    ∀ chunk_size chunk_overlap min_chunk_size : Int,
      Chunker.init chunk_size chunk_overlap min_chunk_size =
        { chunk_size := chunk_size, chunk_overlap := chunk_overlap,
          min_chunk_size := min_chunk_size } :=
  fun _ _ _ => rfl

/-- Claim C9: chunk_document is deterministic modulo the uuid supply: for
any two id supplies (two runs), the chunk lists agree on everything except
the id field — in particular same count, same contents, same order. -/
theorem chunkDocument_deterministic :
    ∀ (T : Tokenizer) (cfg : Chunker) (clean : String → String)
      (g1 g2 : Nat → String) (doc : ParsedDocument),
      (chunkDocument T cfg clean g1 doc).map eraseId =
        (chunkDocument T cfg clean g2 doc).map eraseId := by
  intro T cfg clean g1 g2 doc
  simp [chunkDocument, eraseId, List.map_map, Function.comp]

/-- Claim C1 counterexample: with chunk_size 5 (and the one-token-per-char
tokenizer) a document whose section has an 8-token first paragraph yields a
general chunk whose recorded token count is 8, exceeding chunk_size. -/
theorem chunker_token_budget_counterexample :
    (chunkDocument charTok (Chunker.init 5 1 1) id (fun n => toString n) exDocC1).map
        (fun c => (c.section_type, c.token_count)) = [("general", 8), ("general", 5)]
      ∧ (Chunker.init 5 1 1).chunk_size < (8 : Int) :=
  ⟨by decide, by decide⟩

/-- Claim C1 (amended): a section whose cleaned content fits within
chunk_size yields only chunks with min_chunk_size ≤ token_count ≤
chunk_size, and the trailing-buffer chunk of a split section always has
token_count ≥ min_chunk_size; the other split chunks carry no such
bounds. -/
theorem chunker_token_budget_amended (T : Tokenizer) (cfg : Chunker)
    (clean : String → String) (doc : ParsedDocument) (sec : String × String)
    (name stype : String) (st : SplitState) :
    ((countTokens T (clean sec.2) : Int) ≤ cfg.chunk_size →
      ∀ c ∈ sectionChunks T cfg clean doc sec,
        cfg.min_chunk_size ≤ (c.token_count : Int) ∧
          (c.token_count : Int) ≤ cfg.chunk_size)
    ∧ (∀ c ∈ finalSplitChunks T cfg doc name stype st,
        cfg.min_chunk_size ≤ (c.token_count : Int)) := by
  constructor
  · intro h c hc
    simp only [sectionChunks] at hc
    split at hc
    · split at hc
      · rename_i hmin
        rw [List.mem_singleton] at hc
        subst hc
        exact ⟨hmin, h⟩
      · exact absurd hc (List.not_mem_nil c)
    · rename_i hgt
      exact absurd h hgt
  · intro c hc
    simp only [finalSplitChunks] at hc
    split at hc
    · rename_i hg
      rw [List.mem_singleton] at hc
      subst hc
      exact hg.2
    · exact absurd hc (List.not_mem_nil c)

/-- Claim C1 witness: the amended theorem applied to a 3-token section with
chunk_size 5 and to a final split buffer of 3 tokens with min_chunk_size 1. -/
theorem chunker_token_budget_witness :
    (∀ c ∈ sectionChunks charTok (Chunker.init 5 1 1) id exDocE ("Terms", "abc"),
        (Chunker.init 5 1 1).min_chunk_size ≤ (c.token_count : Int) ∧
          (c.token_count : Int) ≤ (Chunker.init 5 1 1).chunk_size)
    ∧ (∀ c ∈ finalSplitChunks charTok (Chunker.init 5 1 1) exDocE "Terms" "general"
          ⟨"xyz", 3, 1, []⟩,
        (Chunker.init 5 1 1).min_chunk_size ≤ (c.token_count : Int)) :=
  ⟨(chunker_token_budget_amended charTok (Chunker.init 5 1 1) id exDocE
      ("Terms", "abc") "Terms" "general" ⟨"xyz", 3, 1, []⟩).1 (by decide),
   (chunker_token_budget_amended charTok (Chunker.init 5 1 1) id exDocE
      ("Terms", "abc") "Terms" "general" ⟨"xyz", 3, 1, []⟩).2⟩

/-- Claim C8 counterexample: a chunk closed mid-split records the running
counter (10), while the tokenizer count of its final content is 14 (the
paragraph separators joined in along the way are never recounted). -/
theorem token_count_recompute_counterexample :
    (splitLargeSection charTok (Chunker.init 10 2 1) "ab\n\ncd\n\nxyzxyz\n\nqqqq"
        "Terms" "general" exDocE).map
        (fun c => (c.token_count, countTokens charTok c.content)) = [(10, 14), (8, 8)]
      ∧ (10 : Nat) ≠ 14 :=
  ⟨by decide, by decide⟩

/-- Claim C8 (amended): token_count equals the tokenizer count of the
final content for data-sheet chunks, rent-schedule chunks and unsplit
section chunks; the trailing chunk of a split section recomputes its count
on the pre-strip buffer; chunks closed mid-split keep the accumulated
counter instead. -/
theorem token_count_recompute_amended (T : Tokenizer) (cfg : Chunker)
    (clean : String → String) (doc : ParsedDocument) (sec : String × String)
    (name stype : String) (st : SplitState) :
    (∀ c ∈ chunkDataSheet T clean doc, c.token_count = countTokens T c.content)
    ∧ (∀ c ∈ chunkRentSchedules T clean doc, c.token_count = countTokens T c.content)
    ∧ ((countTokens T (clean sec.2) : Int) ≤ cfg.chunk_size →
        ∀ c ∈ sectionChunks T cfg clean doc sec,
          c.token_count = countTokens T c.content)
    ∧ (∀ c ∈ finalSplitChunks T cfg doc name stype st,
        ∃ t, c.content = pyStrip t ∧ c.token_count = countTokens T t) := by
  refine ⟨?_, ?_, ?_, ?_⟩
  · intro c hc
    simp only [chunkDataSheet] at hc
    split at hc
    · exact absurd hc (List.not_mem_nil c)
    · rw [List.mem_singleton] at hc
      subst hc
      rfl
  · intro c hc
    simp only [chunkRentSchedules] at hc
    rcases (mem_foldl_append doc.tables [] c).mp hc with hnil | ⟨table, _, htab⟩
    · exact absurd hnil (List.not_mem_nil c)
    · simp only [rentChunksOfTable] at htab
      split at htab
      · rw [List.mem_singleton] at htab
        subst htab
        rfl
      · exact absurd htab (List.not_mem_nil c)
  · intro h c hc
    simp only [sectionChunks] at hc
    split at hc
    · split at hc
      · rw [List.mem_singleton] at hc
        subst hc
        rfl
      · exact absurd hc (List.not_mem_nil c)
    · rename_i hgt
      exact absurd h hgt
  · intro c hc
    simp only [finalSplitChunks] at hc
    split at hc
    · rw [List.mem_singleton] at hc
      subst hc
      exact ⟨st.text, rfl, rfl⟩
    · exact absurd hc (List.not_mem_nil c)

/-- Claim C8 witness: the amended theorem applied to a concrete document
with a data sheet, a rent-schedule table, a small section and a trailing
split buffer. -/
theorem token_count_recompute_witness :
    (∀ c ∈ chunkDataSheet charTok id exDocC1, c.token_count = countTokens charTok c.content)
    ∧ (∀ c ∈ chunkRentSchedules charTok id exDocC1, c.token_count = countTokens charTok c.content)
    ∧ (∀ c ∈ sectionChunks charTok (Chunker.init 9 1 1) id exDocC1 ("Rights", "pqrs"),
        c.token_count = countTokens charTok c.content)
    ∧ (∀ c ∈ finalSplitChunks charTok (Chunker.init 9 1 1) exDocC1 "Rights" "general"
          ⟨"pq", 2, 1, []⟩,
        ∃ t, c.content = pyStrip t ∧ c.token_count = countTokens charTok t) := by
  obtain ⟨h1, h2, h3, h4⟩ := token_count_recompute_amended charTok (Chunker.init 9 1 1)
    id exDocC1 ("Rights", "pqrs") "Rights" "general" ⟨"pq", 2, 1, []⟩
  exact ⟨h1, h2, h3 (by decide), h4⟩

theorem seed_text_ne_empty (T : Tokenizer) (cfg : Chunker) (b rest : String) :
    getOverlapText T cfg b ++ "\n\n" ++ rest ≠ "" := by
  intro h
  have hd := congrArg String.data h
  simp only [String.data_append] at hd
  rcases List.append_eq_nil.mp hd with ⟨h1, _⟩
  rcases List.append_eq_nil.mp h1 with ⟨_, h3⟩
  exact absurd h3 (by decide)

/-- Claim C4 counterexample: with chunk_overlap 2, the overlap tokens of a
closed chunk decode to " a", but the successor chunk's stored content is
"a\n\nxy" — Python strip() removed the leading space, so the decoded
overlap is not a prefix of the next chunk's content. -/
theorem overlap_not_exact_counterexample :
    (splitLargeSection charTok (Chunker.init 4 2 1) "b a\n\nxy" "S" "general" exDocE).map
        (fun c => c.content) = ["b a", "a\n\nxy"]
      ∧ ((charTok.decode (pySliceLastTokens (charTok.encode "b a")
            (Chunker.init 4 2 1).chunk_overlap)).data.isPrefixOf "a\n\nxy".data) = false :=
  ⟨by decide, by decide⟩

/-- Claim C4 (amended): consecutive chunks of one split section satisfy the
succession relation — the later chunk's content is, up to Python strip(),
the overlap text of the earlier chunk's pre-strip buffer followed by the
blank-line separator and the subsequent paragraphs; the exact decoded
prefix property holds only up to that stripping. -/
theorem splitLargeSection_overlap_chain (T : Tokenizer) (cfg : Chunker)
    (content section_name section_type : String) (doc : ParsedDocument) :
    List.Chain' (ChunkSuccession T cfg)
      (splitLargeSection T cfg content section_name section_type doc) := by
  have key : ∀ (ps : List String) (st : SplitState),
      List.Chain' (ChunkSuccession T cfg) st.chunks →
      (∀ c, st.chunks.getLast? = some c →
        ∃ b rest, c.content = pyStrip b ∧
          st.text = getOverlapText T cfg b ++ "\n\n" ++ rest) →
      List.Chain' (ChunkSuccession T cfg)
          ((ps.foldl (splitStep T cfg doc section_name section_type) st).chunks) ∧
        ∀ c, ((ps.foldl (splitStep T cfg doc section_name section_type) st).chunks).getLast?
              = some c →
          ∃ b rest, c.content = pyStrip b ∧
            (ps.foldl (splitStep T cfg doc section_name section_type) st).text =
              getOverlapText T cfg b ++ "\n\n" ++ rest := by
    intro ps
    induction ps with
    | nil => intro st h1 h2; exact ⟨h1, h2⟩
    | cons p ps ih =>
      intro st h1 h2
      rw [List.foldl_cons]
      by_cases hcl : ((st.tokens + countTokens T p : Nat) : Int) > cfg.chunk_size ∧ st.text ≠ ""
      · have hstep : splitStep T cfg doc section_name section_type st p =
            ⟨getOverlapText T cfg st.text ++ "\n\n" ++ p,
             countTokens T (getOverlapText T cfg st.text ++ "\n\n" ++ p),
             st.chunkNumber + 1,
             st.chunks ++ [closedSplitChunk doc section_name section_type st]⟩ := by
          simp only [splitStep]
          rw [if_pos hcl]
        rw [hstep]
        apply ih
        · rw [List.chain'_append]
          refine ⟨h1, List.chain'_singleton _, ?_⟩
          intro x hx y hy
          simp only [List.head?_cons, Option.mem_def, Option.some.injEq] at hy
          subst hy
          obtain ⟨b, rest, hb, htext⟩ := h2 x (Option.mem_def.mp hx)
          refine ⟨b, rest, hb, ?_⟩
          show pyStrip st.text = _
          rw [htext]
        · intro c hc
          rw [List.getLast?_concat] at hc
          have hc2 : closedSplitChunk doc section_name section_type st = c :=
            Option.some.inj hc
          subst hc2
          exact ⟨st.text, p, rfl, rfl⟩
      · by_cases hne : st.text ≠ ""
        · have hstep : splitStep T cfg doc section_name section_type st p =
              { st with text := st.text ++ "\n\n" ++ p,
                        tokens := st.tokens + countTokens T p } := by
            simp only [splitStep]
            rw [if_neg hcl, if_pos hne]
          rw [hstep]
          apply ih
          · exact h1
          · intro c hc
            obtain ⟨b, rest, hb, htext⟩ := h2 c hc
            refine ⟨b, rest ++ "\n\n" ++ p, hb, ?_⟩
            show st.text ++ "\n\n" ++ p = _
            rw [htext]
            simp [String.append_assoc]
        · have hstep : splitStep T cfg doc section_name section_type st p =
              { st with text := p, tokens := st.tokens + countTokens T p } := by
            simp only [splitStep]
            rw [if_neg hcl, if_neg hne]
          rw [hstep]
          apply ih
          · exact h1
          · intro c hc
            obtain ⟨b, rest, hb, htext⟩ := h2 c hc
            rw [not_not.mp hne] at htext
            exact absurd htext.symm (seed_text_ne_empty T cfg b rest)
  have main : ∀ st2 : SplitState,
      List.Chain' (ChunkSuccession T cfg) st2.chunks →
      (∀ c, st2.chunks.getLast? = some c →
        ∃ b rest, c.content = pyStrip b ∧
          st2.text = getOverlapText T cfg b ++ "\n\n" ++ rest) →
      List.Chain' (ChunkSuccession T cfg)
        (st2.chunks ++ finalSplitChunks T cfg doc section_name section_type st2) := by
    intro st2 hchain hinv
    by_cases hg : st2.text ≠ "" ∧ cfg.min_chunk_size ≤ (countTokens T st2.text : Int)
    · rw [finalSplitChunks, if_pos hg, List.chain'_append]
      refine ⟨hchain, List.chain'_singleton _, ?_⟩
      intro x hx y hy
      simp only [List.head?_cons, Option.mem_def, Option.some.injEq] at hy
      subst hy
      obtain ⟨b, rest, hb, htext⟩ := hinv x (Option.mem_def.mp hx)
      refine ⟨b, rest, hb, ?_⟩
      show pyStrip st2.text = _
      rw [htext]
    · rw [finalSplitChunks, if_neg hg, List.append_nil]
      exact hchain
  obtain ⟨hchain, hinv⟩ := key (pyParagraphs content) ⟨"", 0, 1, []⟩
    (by simp) (by intro c hc; simp at hc)
  simp only [splitLargeSection]
  exact main _ hchain hinv

theorem exbind_ok (a : α) (f : α → Except ε β) : (Except.ok a >>= f) = f a := rfl

theorem exbind_error (e : ε) (f : α → Except ε β) :
    ((Except.error e : Except ε α) >>= f) = Except.error e := rfl

/-- A failing vector sub-search propagates straight out of
HybridRanker.search: no exception handling exists on that path. -/
theorem search_error_construction (cfg : HybridRanker) (store : ChromaStore)
    (gs : List (List String) → List String → List ℚ) (q : String)
    (n : Option Nat) (w : List (String × MVal)) (e : String)
    (hv : store.search q cfg.vector_k w = Except.error e) :
    HybridRanker.search cfg store gs q n w = Except.error e := by
  simp only [HybridRanker.search, vectorSearch]
  rw [hv, exbind_error]

/-- When both sub-searches return, HybridRanker.search returns the fused,
optionally filtered, truncated list. -/
theorem search_ok_construction (cfg : HybridRanker) (store : ChromaStore)
    (gs : List (List String) → List String → List ℚ) (q : String)
    (n : Option Nat) (w : List (String × MVal)) (v b : List RankedItem)
    (hv : store.search q cfg.vector_k w = Except.ok v)
    (hb : bm25Search cfg store gs q = Except.ok b) :
    HybridRanker.search cfg store gs q n w = Except.ok
      ((if w ≠ [] then applyMetadataFilter (reciprocalRankFusion cfg v b) w
        else reciprocalRankFusion cfg v b).take (effectiveK cfg n)) := by
  simp only [HybridRanker.search, vectorSearch]
  rw [hv, exbind_ok, hb, exbind_ok]
  rfl

/-- An ok result of HybridRanker.search decomposes into ok sub-searches
and the fuse-filter-truncate pipeline. -/
theorem search_ok_decomposition (cfg : HybridRanker) (store : ChromaStore)
    (gs : List (List String) → List String → List ℚ) (q : String)
    (n : Option Nat) (w : List (String × MVal)) (res : List SearchResult)
    (h : HybridRanker.search cfg store gs q n w = Except.ok res) :
    ∃ v b, store.search q cfg.vector_k w = Except.ok v ∧
      bm25Search cfg store gs q = Except.ok b ∧
      res = ((if w ≠ [] then applyMetadataFilter (reciprocalRankFusion cfg v b) w
          else reciprocalRankFusion cfg v b).take (effectiveK cfg n)) := by
  cases hv : store.search q cfg.vector_k w with
  | error e =>
    rw [search_error_construction cfg store gs q n w e hv] at h
    exact Except.noConfusion h
  | ok v =>
    cases hb : bm25Search cfg store gs q with
    | error e =>
      have herr : HybridRanker.search cfg store gs q n w = Except.error e := by
        simp only [HybridRanker.search, vectorSearch]
        rw [hv, exbind_ok, hb, exbind_error]
      rw [herr] at h
      exact Except.noConfusion h
    | ok b =>
      refine ⟨v, b, rfl, rfl, ?_⟩
      rw [search_ok_construction cfg store gs q n w v b hv hb] at h
      exact (Except.ok.inj h).symm

theorem mem_scores_processVectorResults (cfg : HybridRanker) :
    ∀ (items : List RankedItem) (rank : Nat) (st : RRFState) (cid : String),
      cid ∈ (processVectorResults cfg rank items st).scores.map Prod.fst ↔
        cid ∈ st.scores.map Prod.fst ∨ cid ∈ items.map RankedItem.id
  | [], rank, st, cid => by simp [processVectorResults]
  | it :: rest, rank, st, cid => by
    simp only [processVectorResults]
    rw [mem_scores_processVectorResults cfg rest (rank + 1) _ cid]
    simp only [List.map_cons, List.mem_cons]
    rw [mem_map_fst_dictInsert]
    tauto

theorem mem_scores_processBM25Results (cfg : HybridRanker) :
    ∀ (items : List RankedItem) (rank : Nat) (st : RRFState) (cid : String),
      cid ∈ (processBM25Results cfg rank items st).scores.map Prod.fst ↔
        cid ∈ st.scores.map Prod.fst ∨ cid ∈ items.map RankedItem.id
  | [], rank, st, cid => by simp [processBM25Results]
  | it :: rest, rank, st, cid => by
    simp only [processBM25Results]
    rw [mem_scores_processBM25Results cfg rest (rank + 1) _ cid]
    simp only [List.map_cons, List.mem_cons]
    rw [mem_map_fst_dictInsert]
    tauto

theorem vector_ranks_processBM25Results (cfg : HybridRanker) :
    ∀ (items : List RankedItem) (rank : Nat) (st : RRFState),
      (processBM25Results cfg rank items st).vector_ranks = st.vector_ranks
  | [], _, _ => rfl
  | it :: rest, rank, st => by
    simp only [processBM25Results]
    rw [vector_ranks_processBM25Results cfg rest (rank + 1)]

theorem bm25_ranks_processVectorResults (cfg : HybridRanker) :
    ∀ (items : List RankedItem) (rank : Nat) (st : RRFState),
      (processVectorResults cfg rank items st).bm25_ranks = st.bm25_ranks
  | [], _, _ => rfl
  | it :: rest, rank, st => by
    simp only [processVectorResults]
    rw [bm25_ranks_processVectorResults cfg rest (rank + 1)]

/-- Claim C2 counterexample: the lexical side alone is healthy and would
return a result, but a failing vector sub-search makes the whole
HybridRanker.search raise instead of degrading. -/
theorem search_degradation_counterexample :
    bm25Search cfgHR1 exStoreVecFail exScoresOne "rent" =
        Except.ok [{ id := "c1", content := "lease rent", metadata := [], score := 1 }]
      ∧ HybridRanker.search cfgHR1 exStoreVecFail exScoresOne "rent" none [] =
          Except.error "vector index down" :=
  ⟨by decide, rfl⟩

/-- Claim C2 (amended): if one sub-search returns an empty result list,
search degrades to a ranking built from the other sub-index alone — with
an empty vector list every result stems from the BM25 list and carries no
vector rank, and with an empty BM25 list every result stems from the
vector list and carries no BM25 rank; but an exception raised by either
sub-search propagates to the caller unchanged — there is no exception
handling, so an error surfaces even though one sub-index survives. -/
theorem search_degradation_amended (cfg : HybridRanker) (store : ChromaStore)
    (gs : List (List String) → List String → List ℚ) (q : String)
    (n : Option Nat) (w : List (String × MVal)) :
    (∀ e, store.search q cfg.vector_k w = Except.error e →
      HybridRanker.search cfg store gs q n w = Except.error e)
    ∧ (∀ l, store.search q cfg.vector_k w = Except.ok [] →
        bm25Search cfg store gs q = Except.ok l →
        ∃ res, HybridRanker.search cfg store gs q n w = Except.ok res ∧
          ∀ r ∈ res, r.vector_rank = none ∧ ∃ it ∈ l, r.chunk_id = it.id)
    ∧ (∀ e v, store.search q cfg.vector_k w = Except.ok v →
        bm25Search cfg store gs q = Except.error e →
        HybridRanker.search cfg store gs q n w = Except.error e)
    ∧ (∀ v, store.search q cfg.vector_k w = Except.ok v →
        bm25Search cfg store gs q = Except.ok [] →
        ∃ res, HybridRanker.search cfg store gs q n w = Except.ok res ∧
          ∀ r ∈ res, r.bm25_rank = none ∧ ∃ it ∈ v, r.chunk_id = it.id) := by
  refine ⟨?_, ?_, ?_, ?_⟩
  · intro e he
    exact search_error_construction cfg store gs q n w e he
  · intro l hv hb
    refine ⟨_, search_ok_construction cfg store gs q n w [] l hv hb, ?_⟩
    intro r hr
    have hr2 : r ∈ reciprocalRankFusion cfg [] l := by
      have hr3 := List.mem_of_mem_take hr
      by_cases hw : w ≠ []
      · rw [if_pos hw] at hr3
        exact List.mem_of_mem_filter hr3
      · rw [if_neg hw] at hr3
        exact hr3
    simp only [reciprocalRankFusion] at hr2
    rcases List.mem_map.mp hr2 with ⟨cid, hcid, hrc⟩
    have hcid2 : cid ∈ l.map RankedItem.id := by
      rw [mem_stableSort] at hcid
      have := (mem_scores_processBM25Results cfg l 1
        (processVectorResults cfg 1 [] ⟨[], [], [], [], []⟩) cid).mp hcid
      simpa [processVectorResults] using this
    rcases List.mem_map.mp hcid2 with ⟨it, hit, hitid⟩
    subst hrc
    refine ⟨?_, it, hit, hitid.symm⟩
    show List.lookup cid (processBM25Results cfg 1 l
      (processVectorResults cfg 1 [] ⟨[], [], [], [], []⟩)).vector_ranks = none
    rw [vector_ranks_processBM25Results]
    rfl
  · intro e v hv hb
    simp only [HybridRanker.search, vectorSearch]
    rw [hv, exbind_ok, hb, exbind_error]
  · intro v hv hb
    refine ⟨_, search_ok_construction cfg store gs q n w v [] hv hb, ?_⟩
    intro r hr
    have hr2 : r ∈ reciprocalRankFusion cfg v [] := by
      have hr3 := List.mem_of_mem_take hr
      by_cases hw : w ≠ []
      · rw [if_pos hw] at hr3
        exact List.mem_of_mem_filter hr3
      · rw [if_neg hw] at hr3
        exact hr3
    simp only [reciprocalRankFusion] at hr2
    rcases List.mem_map.mp hr2 with ⟨cid, hcid, hrc⟩
    have hcid2 : cid ∈ v.map RankedItem.id := by
      rw [mem_stableSort] at hcid
      have := (mem_scores_processBM25Results cfg [] 1
        (processVectorResults cfg 1 v ⟨[], [], [], [], []⟩) cid).mp hcid
      rw [mem_scores_processVectorResults cfg v 1 ⟨[], [], [], [], []⟩ cid] at this
      simpa using this
    rcases List.mem_map.mp hcid2 with ⟨it, hit, hitid⟩
    subst hrc
    refine ⟨?_, it, hit, hitid.symm⟩
    show List.lookup cid (processBM25Results cfg 1 []
      (processVectorResults cfg 1 v ⟨[], [], [], [], []⟩)).bm25_ranks = none
    show List.lookup cid
      (processVectorResults cfg 1 v ⟨[], [], [], [], []⟩).bm25_ranks = none
    rw [bm25_ranks_processVectorResults]
    rfl

/-- Claim C2 witness: the amended theorem applied to four concrete stores —
a failing vector search propagates its error, an empty vector search
yields ok lexical-only results, a failing corpus snapshot propagates its
error past a healthy vector search, and an empty lexical side yields ok
vector-only results. -/
theorem search_degradation_witness :
    HybridRanker.search cfgHR1 exStoreVecFail exScoresOne "rent" none [] =
        Except.error "vector index down"
      ∧ (∃ res, HybridRanker.search cfgHR1 exStoreVecEmpty exScoresOne "rent" none [] =
          Except.ok res ∧
          ∀ r ∈ res, r.vector_rank = none ∧
            ∃ it ∈ [({ id := "c1", content := "lease rent", metadata := [],
                       score := 1 } : RankedItem)],
              r.chunk_id = it.id)
      ∧ HybridRanker.search cfgHR1 exStoreBm25Fail exScoresOne "rent" none [] =
          Except.error "corpus unavailable"
      ∧ ∃ res, HybridRanker.search cfgHR1 exStoreVecX exScoresNil "q" none [] =
          Except.ok res ∧
          ∀ r ∈ res, r.bm25_rank = none ∧
            ∃ it ∈ [({ id := "a1", content := "content a",
                       metadata := [("tenant_name", MVal.str "X")],
                       score := 0 } : RankedItem)],
              r.chunk_id = it.id :=
  ⟨(search_degradation_amended cfgHR1 exStoreVecFail exScoresOne "rent" none []).1
      "vector index down" rfl,
   (search_degradation_amended cfgHR1 exStoreVecEmpty exScoresOne "rent" none []).2.1
      [{ id := "c1", content := "lease rent", metadata := [], score := 1 }] rfl (by decide),
   (search_degradation_amended cfgHR1 exStoreBm25Fail exScoresOne "rent" none []).2.2.1
      "corpus unavailable" [] rfl rfl,
   (search_degradation_amended cfgHR1 exStoreVecX exScoresNil "q" none []).2.2.2
      [{ id := "a1", content := "content a",
         metadata := [("tenant_name", MVal.str "X")], score := 0 }] rfl rfl⟩

/-- Claim C5: no result that HybridRanker.search returns can disagree with
the supplied metadata filter: every filter pair is present in the result's
metadata with exactly the filter value (the filter is applied to the fused
list before truncation). -/
theorem search_filter_correctness (cfg : HybridRanker) (store : ChromaStore)
    (gs : List (List String) → List String → List ℚ) (q : String)
    (n : Option Nat) (w : List (String × MVal)) (res : List SearchResult)
    (h : HybridRanker.search cfg store gs q n w = Except.ok res) :
    ∀ r ∈ res, ∀ kv ∈ w, List.lookup kv.1 r.metadata = some kv.2 := by
  intro r hr kv hkv
  obtain ⟨v, b, hv, hb, hres⟩ := search_ok_decomposition cfg store gs q n w res h
  subst hres
  have hw : w ≠ [] := List.ne_nil_of_mem hkv
  rw [if_pos hw] at hr
  have hr2 := List.mem_of_mem_take hr
  have hmatch : matchesFilter w r = true := List.of_mem_filter hr2
  have hall := (List.all_eq_true.mp hmatch) kv hkv
  cases hlk : List.lookup kv.1 r.metadata with
  | none => rw [hlk] at hall; exact absurd hall (by simp)
  | some val =>
    rw [hlk] at hall
    simp only [beq_iff_eq] at hall
    rw [hall]

/-- Claim C5 witness: the filter-correctness theorem applied to a store
whose vector search returns one tenant-X chunk, with the tenant-X filter,
at the one concrete returned result. -/
theorem search_filter_correctness_witness :
    List.lookup "tenant_name"
        ({ chunk_id := "a1", content := "content a",
           metadata := [("tenant_name", MVal.str "X")],
           score := (0 : ℚ) + 1 * (1 / (60 + ((1 : Nat) : ℚ))),
           vector_rank := some 1, bm25_rank := none } : SearchResult).metadata =
      some (MVal.str "X") :=
  search_filter_correctness cfgHR1 exStoreVecX exScoresNil "q" (some 5)
    [("tenant_name", MVal.str "X")]
    ((applyMetadataFilter
        (reciprocalRankFusion cfgHR1
          [⟨"a1", "content a", [("tenant_name", MVal.str "X")], 0⟩] [])
        [("tenant_name", MVal.str "X")]).take 5)
    (search_ok_construction cfgHR1 exStoreVecX exScoresNil "q" (some 5)
      [("tenant_name", MVal.str "X")]
      [⟨"a1", "content a", [("tenant_name", MVal.str "X")], 0⟩] [] rfl rfl)
    { chunk_id := "a1", content := "content a",
      metadata := [("tenant_name", MVal.str "X")],
      score := (0 : ℚ) + 1 * (1 / (60 + ((1 : Nat) : ℚ))),
      vector_rank := some 1, bm25_rank := none }
    (by exact List.mem_singleton.mpr rfl)
    ("tenant_name", MVal.str "X") (List.mem_singleton.mpr rfl)

/-- Claim C10: with search_type "keyword", QueryEngine.search_only returns
the same list for every tenant filter (the filter never reaches the BM25
path), and concretely a query filtered to tenant A returns the tenant-B
chunk of the corpus. -/
theorem keyword_search_ignores_tenant_filter :
    (∀ (cfg : HybridRanker) (store : ChromaStore)
        (gs : List (List String) → List String → List ℚ)
        (q : String) (n : Nat) (f1 f2 : Option String),
        QueryEngine.searchOnly cfg store gs q n f1 "keyword" =
          QueryEngine.searchOnly cfg store gs q n f2 "keyword")
    ∧ QueryEngine.searchOnly cfgHR1 exStoreTenantB exScoresOne "rent" 10
        (some "A") "keyword" =
        Except.ok [{ chunk_id := "c1", content := "lease rent",
                     metadata := [("tenant_name", MVal.str "B")], score := 1,
                     vector_rank := none, bm25_rank := some 1 }] :=
  ⟨fun _ _ _ _ _ _ _ => rfl, by decide⟩

theorem enum_fst_lt_pairwise (l : List α) :
    l.enum.Pairwise (fun a b => a.1 < b.1) := by
  rw [List.pairwise_iff_getElem]
  intro i j hi hj hij
  simp only [List.getElem_enum]
  exact hij

theorem bm25TopK_sorted (cfg : HybridRanker) (scores : List ℚ) :
    (bm25TopK cfg scores).Pairwise
      (fun a b => b.2 < a.2 ∨ (a.2 = b.2 ∧ a.1 < b.1)) := by
  have htrans : ∀ (a b c : Nat × ℚ),
      (fun x y : Nat × ℚ => decide (y.2 ≤ x.2)) a b = true →
      (fun x y : Nat × ℚ => decide (y.2 ≤ x.2)) b c = true →
      (fun x y : Nat × ℚ => decide (y.2 ≤ x.2)) a c = true := by
    intro a b c h1 h2
    simp only [decide_eq_true_eq] at h1 h2 ⊢
    exact h2.trans h1
  have htotal : ∀ a b : Nat × ℚ,
      (fun x y : Nat × ℚ => decide (y.2 ≤ x.2)) a b = true ∨
      (fun x y : Nat × ℚ => decide (y.2 ≤ x.2)) b a = true := by
    intro a b
    rcases le_total b.2 a.2 with h | h
    · exact Or.inl (decide_eq_true h)
    · exact Or.inr (decide_eq_true h)
  have hsorted := pairwise_stableSort htrans htotal scores.enum
    (enum_fst_lt_pairwise scores)
  have hconv : (stableSort (fun x y : Nat × ℚ => decide (y.2 ≤ x.2)) scores.enum).Pairwise
      (fun a b => b.2 < a.2 ∨ (a.2 = b.2 ∧ a.1 < b.1)) := by
    refine hsorted.imp ?_
    rintro a b ⟨hle, himp⟩
    rw [decide_eq_true_eq] at hle
    rcases lt_or_eq_of_le hle with h | h
    · exact Or.inl h
    · exact Or.inr ⟨h.symm, himp (decide_eq_true (le_of_eq h.symm))⟩
  simp only [bm25TopK]
  exact List.Pairwise.filter _
    (List.Pairwise.sublist (List.take_sublist _ _) hconv)

/-- Claim C7: the BM25 selection keeps at most bm25_k entries, all with
strictly positive score, ordered by descending score with ties broken by
the original corpus index (the stable sort); and every ok result of
_bm25_search is exactly that selection mapped onto the corpus rows. -/
theorem bm25_ranking_contract (cfg : HybridRanker) (scores : List ℚ) :
    ((bm25TopK cfg scores).length ≤ cfg.bm25_k
      ∧ (∀ p ∈ bm25TopK cfg scores, 0 < p.2)
      ∧ (bm25TopK cfg scores).Pairwise
          (fun a b => b.2 < a.2 ∨ (a.2 = b.2 ∧ a.1 < b.1)))
    ∧ ∀ (store : ChromaStore) (gs : List (List String) → List String → List ℚ)
        (q : String) (corpus : BM25Corpus) (l : List RankedItem),
        store.get_all_chunks = Except.ok corpus →
        bm25Search cfg store gs q = Except.ok l →
        l = (bm25TopK cfg (gs (corpus.documents.map tokenize) (tokenize q))).map
            (bm25ItemOfIdx corpus)
          ∧ l.length ≤ cfg.bm25_k ∧ ∀ r ∈ l, 0 < r.score := by
  constructor
  · refine ⟨?_, ?_, bm25TopK_sorted cfg scores⟩
    · simp only [bm25TopK]
      exact le_trans (List.length_filter_le _ _) (List.length_take_le _ _)
    · intro p hp
      simp only [bm25TopK, List.mem_filter] at hp
      exact of_decide_eq_true hp.2
  · intro store gs q corpus l hga hl
    have hok : bm25Search cfg store gs q = Except.ok
        ((bm25TopK cfg (gs (corpus.documents.map tokenize) (tokenize q))).map
          (bm25ItemOfIdx corpus)) := by
      simp only [bm25Search]
      rw [hga, exbind_ok]
      rfl
    rw [hok] at hl
    have hl2 := (Except.ok.inj hl).symm
    subst hl2
    refine ⟨rfl, ?_, ?_⟩
    · rw [List.length_map]
      simp only [bm25TopK]
      exact le_trans (List.length_filter_le _ _) (List.length_take_le _ _)
    · intro r hr
      rcases List.mem_map.mp hr with ⟨p, hp, hpr⟩
      simp only [bm25TopK, List.mem_filter] at hp
      rw [← hpr]
      exact of_decide_eq_true hp.2

/-- Claim C7 witness: the contract applied to a two-document corpus with
external scores 2 and 3 — the selection is [(1,3),(0,2)] mapped to the
corpus rows c2 then c1. -/
theorem bm25_ranking_contract_witness :
    ([⟨"c2", "d2", [], 3⟩, ⟨"c1", "d1", [], 2⟩] : List RankedItem) =
        (bm25TopK cfgHR1 (exScoresTwo
          ((⟨["c1", "c2"], ["d1", "d2"], [[], []]⟩ : BM25Corpus).documents.map tokenize)
          (tokenize "d"))).map
          (bm25ItemOfIdx ⟨["c1", "c2"], ["d1", "d2"], [[], []]⟩)
      ∧ ([⟨"c2", "d2", [], 3⟩, ⟨"c1", "d1", [], 2⟩] : List RankedItem).length ≤ cfgHR1.bm25_k
      ∧ ∀ r ∈ ([⟨"c2", "d2", [], 3⟩, ⟨"c1", "d1", [], 2⟩] : List RankedItem), 0 < r.score :=
  (bm25_ranking_contract cfgHR1 [2, 3]).2 exStoreTwo exScoresTwo "d"
    ⟨["c1", "c2"], ["d1", "d2"], [[], []]⟩
    [⟨"c2", "d2", [], 3⟩, ⟨"c1", "d1", [], 2⟩] rfl (by decide)

theorem scores_processVectorResults (cfg : HybridRanker) :
    ∀ (items : List RankedItem) (rank : Nat) (st : RRFState) (cid : String),
      dictGetD (processVectorResults cfg rank items st).scores cid 0 =
        dictGetD st.scores cid 0 +
          contribSum cfg.vector_weight cfg.rrf_k rank (items.map RankedItem.id) cid
  | [], rank, st, cid => by simp [processVectorResults, contribSum]
  | it :: rest, rank, st, cid => by
    simp only [processVectorResults, List.map_cons, contribSum]
    rw [scores_processVectorResults cfg rest (rank + 1) _ cid]
    by_cases h : it.id = cid
    · subst h
      rw [if_pos rfl]
      simp only [dictGetD, lookup_dictInsert_self, Option.getD_some]
      rw [add_assoc]
    · rw [if_neg h]
      simp only [dictGetD, lookup_dictInsert_ne (Ne.symm h)]
      rw [zero_add]

theorem scores_processBM25Results (cfg : HybridRanker) :
    ∀ (items : List RankedItem) (rank : Nat) (st : RRFState) (cid : String),
      dictGetD (processBM25Results cfg rank items st).scores cid 0 =
        dictGetD st.scores cid 0 +
          contribSum cfg.bm25_weight cfg.rrf_k rank (items.map RankedItem.id) cid
  | [], rank, st, cid => by simp [processBM25Results, contribSum]
  | it :: rest, rank, st, cid => by
    simp only [processBM25Results, List.map_cons, contribSum]
    rw [scores_processBM25Results cfg rest (rank + 1) _ cid]
    by_cases h : it.id = cid
    · subst h
      rw [if_pos rfl]
      simp only [dictGetD, lookup_dictInsert_self, Option.getD_some]
      rw [add_assoc]
    · rw [if_neg h]
      simp only [dictGetD, lookup_dictInsert_ne (Ne.symm h)]
      rw [zero_add]

theorem contribSum_of_not_mem (w k : ℚ) :
    ∀ (ids : List String) (rank : Nat) (cid : String), cid ∉ ids →
      contribSum w k rank ids cid = 0
  | [], _, _, _ => rfl
  | i :: rest, rank, cid, h => by
    simp only [contribSum]
    rw [if_neg (fun he => h (List.mem_cons.mpr (Or.inl he.symm))),
      contribSum_of_not_mem w k rest (rank + 1) cid
        (fun hm => h (List.mem_cons_of_mem _ hm))]
    rw [zero_add]

theorem contribSum_eq_of_nodup (w k : ℚ) :
    ∀ (ids : List String) (rank : Nat) (cid : String), ids.Nodup → 1 ≤ rank →
      contribSum w k rank ids cid =
        (match rankIn ids cid with
         | some r => w * (1 / (k + ((rank - 1 + r : Nat) : ℚ)))
         | none => 0)
  | [], rank, cid, _, _ => by simp [contribSum, rankIn]
  | i :: rest, rank, cid, hnd, hr => by
    rw [List.nodup_cons] at hnd
    simp only [contribSum, rankIn]
    by_cases h : i = cid
    · rw [if_pos h, if_pos h]
      subst h
      rw [contribSum_of_not_mem w k rest (rank + 1) i hnd.1]
      have hnat : rank - 1 + 1 = rank := by omega
      simp only [hnat, add_zero]
    · rw [if_neg h, if_neg h]
      rw [contribSum_eq_of_nodup w k rest (rank + 1) cid hnd.2 (by omega)]
      cases hrk : rankIn rest cid with
      | none => simp [hrk]
      | some r =>
        simp only [hrk, Option.map_some']
        have hnat : rank + 1 - 1 + r = rank - 1 + (r + 1) := by omega
        rw [hnat, zero_add]

theorem contribSum_one_eq (w k : ℚ) (ids : List String) (cid : String)
    (hnd : ids.Nodup) :
    contribSum w k 1 ids cid = rrfContribution w k ids cid := by
  rw [contribSum_eq_of_nodup w k ids 1 cid hnd (le_refl 1)]
  unfold rrfContribution
  cases hr : rankIn ids cid with
  | none => rfl
  | some r => simp

/-- Claim C3: the fusion assigns each result the sum of the two per-list
RRF contributions (weight × 1/(rrf_k + rank) at its 1-based rank, zero if
absent), the result set is exactly the union of the two candidate id sets,
and the output is sorted by accumulated score in descending order. -/
theorem rrf_fusion_contract (cfg : HybridRanker) (v b : List RankedItem)
    (hv : (v.map RankedItem.id).Nodup) (hb : (b.map RankedItem.id).Nodup) :
    (∀ r ∈ reciprocalRankFusion cfg v b,
        r.score =
          rrfContribution cfg.vector_weight cfg.rrf_k (v.map RankedItem.id) r.chunk_id
          + rrfContribution cfg.bm25_weight cfg.rrf_k (b.map RankedItem.id) r.chunk_id)
    ∧ (∀ cid, (∃ r ∈ reciprocalRankFusion cfg v b, r.chunk_id = cid) ↔
        cid ∈ v.map RankedItem.id ∨ cid ∈ b.map RankedItem.id)
    ∧ (reciprocalRankFusion cfg v b).Pairwise (fun r1 r2 => r2.score ≤ r1.score) := by
  refine ⟨?_, ?_, ?_⟩
  · intro r hr
    simp only [reciprocalRankFusion] at hr
    rcases List.mem_map.mp hr with ⟨cid, _, hrc⟩
    subst hrc
    show dictGetD (processBM25Results cfg 1 b
        (processVectorResults cfg 1 v ⟨[], [], [], [], []⟩)).scores cid 0 = _
    rw [scores_processBM25Results, scores_processVectorResults]
    show dictGetD ([] : List (String × ℚ)) cid 0 + _ + _ = _
    rw [contribSum_one_eq cfg.vector_weight cfg.rrf_k _ cid hv,
      contribSum_one_eq cfg.bm25_weight cfg.rrf_k _ cid hb]
    show (0 : ℚ) + _ + _ = _
    rw [zero_add]
  · intro cid
    constructor
    · rintro ⟨r, hr, hrc⟩
      simp only [reciprocalRankFusion] at hr
      rcases List.mem_map.mp hr with ⟨cid2, hcid2, hrc2⟩
      subst hrc2
      rw [mem_stableSort] at hcid2
      have := (mem_scores_processBM25Results cfg b 1
        (processVectorResults cfg 1 v ⟨[], [], [], [], []⟩) cid2).mp hcid2
      rw [mem_scores_processVectorResults cfg v 1 ⟨[], [], [], [], []⟩ cid2] at this
      subst hrc
      simpa using this
    · intro hmem
      have hkey : cid ∈ (processBM25Results cfg 1 b
          (processVectorResults cfg 1 v ⟨[], [], [], [], []⟩)).scores.map Prod.fst := by
        rw [mem_scores_processBM25Results cfg b 1
          (processVectorResults cfg 1 v ⟨[], [], [], [], []⟩) cid,
          mem_scores_processVectorResults cfg v 1 ⟨[], [], [], [], []⟩ cid]
        simpa using hmem
      refine ⟨_, List.mem_map_of_mem _ ((mem_stableSort _ cid _).mpr hkey), rfl⟩
  · simp only [reciprocalRankFusion]
    rw [List.pairwise_map]
    have htrans : ∀ (a b2 c : String),
        (fun x y : String =>
          decide (dictGetD (processBM25Results cfg 1 b
              (processVectorResults cfg 1 v ⟨[], [], [], [], []⟩)).scores y 0 ≤
            dictGetD (processBM25Results cfg 1 b
              (processVectorResults cfg 1 v ⟨[], [], [], [], []⟩)).scores x 0)) a b2 = true →
        (fun x y : String => decide (dictGetD (processBM25Results cfg 1 b
              (processVectorResults cfg 1 v ⟨[], [], [], [], []⟩)).scores y 0 ≤
            dictGetD (processBM25Results cfg 1 b
              (processVectorResults cfg 1 v ⟨[], [], [], [], []⟩)).scores x 0)) b2 c = true →
        (fun x y : String => decide (dictGetD (processBM25Results cfg 1 b
              (processVectorResults cfg 1 v ⟨[], [], [], [], []⟩)).scores y 0 ≤
            dictGetD (processBM25Results cfg 1 b
              (processVectorResults cfg 1 v ⟨[], [], [], [], []⟩)).scores x 0)) a c = true := by
      intro a b2 c h1 h2
      simp only [decide_eq_true_eq] at h1 h2 ⊢
      exact h2.trans h1
    have htotal : ∀ a b2 : String,
        (fun x y : String => decide (dictGetD (processBM25Results cfg 1 b
              (processVectorResults cfg 1 v ⟨[], [], [], [], []⟩)).scores y 0 ≤
            dictGetD (processBM25Results cfg 1 b
              (processVectorResults cfg 1 v ⟨[], [], [], [], []⟩)).scores x 0)) a b2 = true ∨
        (fun x y : String => decide (dictGetD (processBM25Results cfg 1 b
              (processVectorResults cfg 1 v ⟨[], [], [], [], []⟩)).scores y 0 ≤
            dictGetD (processBM25Results cfg 1 b
              (processVectorResults cfg 1 v ⟨[], [], [], [], []⟩)).scores x 0)) b2 a = true := by
      intro a b2
      rcases le_total (dictGetD (processBM25Results cfg 1 b
          (processVectorResults cfg 1 v ⟨[], [], [], [], []⟩)).scores b2 0)
        (dictGetD (processBM25Results cfg 1 b
          (processVectorResults cfg 1 v ⟨[], [], [], [], []⟩)).scores a 0) with h | h
      · exact Or.inl (decide_eq_true h)
      · exact Or.inr (decide_eq_true h)
    have hs := pairwise_le_stableSort htrans htotal
      ((processBM25Results cfg 1 b
        (processVectorResults cfg 1 v ⟨[], [], [], [], []⟩)).scores.map Prod.fst)
    refine hs.imp ?_
    intro x y h
    exact of_decide_eq_true h

/-- Claim C3 witness: the fusion contract applied to one-element vector and
BM25 lists with distinct ids. -/
theorem rrf_fusion_contract_witness :
    (∀ r ∈ reciprocalRankFusion cfgHR1 [⟨"a", "ca", [], 5⟩] [⟨"b", "cb", [], 3⟩],
        r.score =
          rrfContribution cfgHR1.vector_weight cfgHR1.rrf_k
            (([⟨"a", "ca", [], 5⟩] : List RankedItem).map RankedItem.id) r.chunk_id
          + rrfContribution cfgHR1.bm25_weight cfgHR1.rrf_k
            (([⟨"b", "cb", [], 3⟩] : List RankedItem).map RankedItem.id) r.chunk_id)
    ∧ (∀ cid, (∃ r ∈ reciprocalRankFusion cfgHR1 [⟨"a", "ca", [], 5⟩] [⟨"b", "cb", [], 3⟩],
          r.chunk_id = cid) ↔
        cid ∈ ([⟨"a", "ca", [], 5⟩] : List RankedItem).map RankedItem.id ∨
          cid ∈ ([⟨"b", "cb", [], 3⟩] : List RankedItem).map RankedItem.id)
    ∧ (reciprocalRankFusion cfgHR1 [⟨"a", "ca", [], 5⟩] [⟨"b", "cb", [], 3⟩]).Pairwise
        (fun r1 r2 => r2.score ≤ r1.score) :=
  rrf_fusion_contract cfgHR1 [⟨"a", "ca", [], 5⟩] [⟨"b", "cb", [], 3⟩]
    (by decide) (by decide)
